import Mathlib

/-!
# Verification of the rgit object store (`src/main.rs`)

Shallow embedding of the content-addressed object store of the rgit
repository: the object codec (`hash_object`'s tag/NUL/content encoding and
SHA-1 identity hash), the object store (`hash_object` / `get_object` over the
`.rgit/objects` directory, modelled as a map from file paths to byte lists),
and the tree builder (`write_tree`, with the filesystem modelled as an
inductive tree and directory enumeration order given by the child list).

Bytes are `Nat`s below 256; 32-bit arithmetic is `Nat` arithmetic reduced
modulo `2 ^ 32`.
-/

set_option autoImplicit false
set_option maxRecDepth 100000

namespace Rgit

/-- The bytes of an ASCII string, one `Nat` per character.  All strings the
program feeds to the codec (the tags `"blob"`/`"tree"`, hex hashes, the path
names used in the examples) are ASCII, where `Char.toNat` is the UTF-8 byte. -/
def asciiBytes (s : String) : List Nat :=
  s.data.map Char.toNat

/-! ## SHA-1 (FIPS 180-4), the `sha1` crate's function used by `hash_object` -/

/-- Truncate to a 32-bit word. -/
def w32 (n : Nat) : Nat := n % 4294967296

/-- Rotate the 32-bit word `n` left by `b` bits. -/
def rotl (b n : Nat) : Nat := w32 ((n <<< b) + (n >>> (32 - b)))

/-- Big-endian bytes of `n`, exactly `k` bytes. -/
def beBytes (k n : Nat) : List Nat :=
  match k with
  | 0 => []
  | k + 1 => beBytes k (n / 256) ++ [n % 256]

/-- Big-endian 32-bit words from a byte list (leftover bytes dropped; blocks
fed to it always hold a multiple of 4 bytes). -/
def toWords : List Nat → List Nat
  | b0 :: b1 :: b2 :: b3 :: rest =>
      (((b0 * 256 + b1) * 256 + b2) * 256 + b3) :: toWords rest
  | _ => []

/-- Message-schedule extension: `acc` is the schedule so far, most recent word
first; each step prepends `rotl 1 (w16 ^^^ w14 ^^^ w8 ^^^ w3)` counted from the
new word.  Run with `k = 64` to grow the 16 block words to 80. -/
def sched (acc : List Nat) : Nat → List Nat
  | 0 => acc
  | k + 1 =>
      sched (rotl 1 (acc.getD 2 0 ^^^ acc.getD 7 0 ^^^
                     acc.getD 13 0 ^^^ acc.getD 15 0) :: acc) k

/-- One SHA-1 round: `i` is the round index, `st` the `(a,b,c,d,e)` state,
`wi` the schedule word. -/
def round (i : Nat) (st : Nat × Nat × Nat × Nat × Nat) (wi : Nat) :
    Nat × Nat × Nat × Nat × Nat :=
  let (a, b, c, d, e) := st
  let f :=
    if i < 20 then (b &&& c) ||| ((b ^^^ 4294967295) &&& d)
    else if i < 40 then b ^^^ c ^^^ d
    else if i < 60 then (b &&& c) ||| (b &&& d) ||| (c &&& d)
    else b ^^^ c ^^^ d
  let k :=
    if i < 20 then 1518500249
    else if i < 40 then 1859775393
    else if i < 60 then 2400959708
    else 3395469782
  (w32 (rotl 5 a + f + e + k + wi), a, rotl 30 b, c, d)

/-- Compress one 64-byte block into the running hash state. -/
def processBlock (h : Nat × Nat × Nat × Nat × Nat) (block : List Nat) :
    Nat × Nat × Nat × Nat × Nat :=
  let ws := (sched (toWords block).reverse 64).reverse
  let (h0, h1, h2, h3, h4) := h
  let (a, b, c, d, e) :=
    ws.enum.foldl (fun st p => round p.1 st p.2) (h0, h1, h2, h3, h4)
  (w32 (h0 + a), w32 (h1 + b), w32 (h2 + c), w32 (h3 + d), w32 (h4 + e))

/-- Split a byte list into 64-byte chunks; the fuel is an upper bound on the
number of chunks, making the recursion structural (and kernel-reducible). -/
def chunksGo (fuel : Nat) (l : List Nat) : List (List Nat) :=
  match fuel, l with
  | _, [] => []
  | 0, _ => []
  | fuel + 1, l => l.take 64 :: chunksGo fuel (l.drop 64)

/-- Split a byte list into 64-byte chunks. -/
def chunks (l : List Nat) : List (List Nat) :=
  chunksGo l.length l

/-- SHA-1 padding: a `0x80` byte, zeros to 56 mod 64, then the bit length as
8 big-endian bytes. -/
def padMsg (msg : List Nat) : List Nat :=
  msg ++ 128 :: List.replicate ((119 - msg.length % 64) % 64) 0
      ++ beBytes 8 (msg.length * 8)

/-- The 20-byte SHA-1 digest of a byte list. -/
def sha1 (msg : List Nat) : List Nat :=
  let (h0, h1, h2, h3, h4) :=
    (chunks (padMsg msg)).foldl processBlock
      (1732584193, 4023233417, 2562383102, 271733878, 3285377520)
  beBytes 4 h0 ++ beBytes 4 h1 ++ beBytes 4 h2 ++ beBytes 4 h3 ++ beBytes 4 h4

/-! ## Hex encoding (the `hex` crate's `hex::encode`, lowercase) -/

/-- Lowercase hex digit for `n < 16`. -/
def hexDigit (n : Nat) : Char :=
  if n < 10 then Char.ofNat (48 + n) else Char.ofNat (87 + n)

/-- Two lowercase hex digits of a byte. -/
def byteHex (b : Nat) : List Char :=
  [hexDigit (b / 16), hexDigit (b % 16)]

/-- Lowercase hex encoding of a byte list. -/
def hexEncode (bs : List Nat) : String :=
  ⟨(bs.map byteHex).flatten⟩

/-- The hex SHA-1 digest, as `hex::encode(hasher.finalize())` produces it. -/
def sha1hex (msg : List Nat) : String :=
  hexEncode (sha1 msg)

/-! ## The object store

The backing filesystem under `.rgit/objects` is modelled as a map from file
path strings to byte lists: `File::create(path)` followed by a full write is
updating the map at `path`, `fs::read(path)` is a lookup, failing with a
NotFound error when the path is absent. -/

/-- The Rust `static RGIT_DIR: &str = ".rgit";`. -/
def RGIT_DIR : String := ".rgit"

/-- The Rust `static RGIT_DIR_OBJECT: &str = ".rgit/objects";` (unused by the
functions below, as in the source where the `create_dir` call is commented
out). -/
def RGIT_DIR_OBJECT : String := ".rgit/objects"

/-- The object files on disk: path string to stored bytes. -/
def Store : Type := String → Option (List Nat)

/-- The store with no objects. -/
def emptyStore : Store := fun _ => none

/-- Writing a file: `File::create(path)` followed by `file.write(&data)` makes
the file at `path` hold
`data`, creating or truncating. -/
def Store.put (st : Store) (path : String) (data : List Nat) : Store :=
  fun p => if p = path then some data else st p

/-- The object file path `format!("{}/objects/{}", RGIT_DIR, hash)`. -/
def objectPath (hash : String) : String :=
  RGIT_DIR ++ "/objects/" ++ hash

/-- The function `fn hash_object(mut data: Vec<u8>, type_object: Option<&str>)`:
prepends `type_object.unwrap_or("blob")` and a `0x00` byte, hashes the whole
encoded sequence with SHA-1, writes the encoded bytes to
`.rgit/objects/<hex hash>` and returns the hex hash.  The only fallible steps
are filesystem writes, always successful in the map model, so the result is
the returned hash together with the updated store. -/
def hash_object (data : List Nat) (type_object : Option String) (st : Store) :
    String × Store :=
  let beginBytes := asciiBytes (type_object.getD "blob") ++ [0]
  let full := beginBytes ++ data
  let hash := sha1hex full
  (hash, st.put (objectPath hash) full)

/-- Outcome of `get_object`: `ok` is `Ok(data)`, `notFound` is the `Err`
propagated by `fs::read(file_path)?` when no file exists at the path (an
`io::Error` of kind NotFound — the spec's `ObjectNotFound`), and `panicked`
is a process abort via `panic!`/`unwrap`, carrying the panic message. -/
inductive GetResult where
  | ok (data : List Nat)
  | notFound
  | panicked (msg : String)
  deriving DecidableEq, Repr

/-- The first split segment `io::Cursor::new(&data).split(b'\x00').next()`:
`None` on empty input,
otherwise the bytes strictly before the first `0x00` (the whole input when no
separator occurs). -/
def firstSegment (data : List Nat) : Option (List Nat) :=
  if data = [] then none
  else some (data.takeWhile (fun b => b ≠ 0))

/-- The Rust panic message of `Option::unwrap` on `None`. -/
def unwrapNoneMsg : String :=
  "called `Option::unwrap()` on a `None` value"

/-- Debug formatting of a `Vec<u8>` as `{:?}` renders it,
e.g. `[98, 108, 111, 98]`. -/
def fmtBytes (bs : List Nat) : String :=
  "[" ++ String.intercalate ", " (bs.map toString) ++ "]"

/-- The function `fn get_object(oid: &str, expected: Option<&str>)`:
reads `.rgit/objects/<oid>` (propagating NotFound), takes the segment before
the first `0x00` as the type tag (`split_iter.next().unwrap()` panics when the
file is empty), compares it against `expected.unwrap_or("blob")` and panics
with `"Expected {}, got {:?}"` on mismatch — where `expected.unwrap()` inside
the panic arguments itself panics first when `expected` is `None` — and on
success returns the WHOLE read data, tag and separator included.  The tag
comparison is modelled at the byte level; all tags this program stores are
ASCII, so `String::from_utf8(..).expect("")` never fails on them and string
equality coincides with byte equality. -/
def get_object (st : Store) (oid : String) (expected : Option String) :
    GetResult :=
  match st (objectPath oid) with
  | none => .notFound
  | some data =>
    match firstSegment data with
    | none => .panicked unwrapNoneMsg
    | some type_object =>
      if type_object ≠ asciiBytes (expected.getD "blob") then
        match expected with
        | some e => .panicked ("Expected " ++ e ++ ", got " ++ fmtBytes type_object)
        | none => .panicked unwrapNoneMsg
      else .ok data

/-! ## The tree builder -/

/-- A filesystem node: a regular file with its contents, or a directory with
its children in the order `fs::read_dir` enumerates them.  (`write_tree` also
treats any non-directory path — socket, missing, … — like `file`: the only
test it makes is `path.is_dir()`.) -/
inductive FsNode where
  | file (content : List Nat)
  | dir (children : List (String × FsNode))

/-- Boolean list prefix test (structural, kernel-reducible). -/
def prefixOfB (pat l : List Char) : Bool :=
  match pat, l with
  | [], _ => true
  | _ :: _, [] => false
  | a :: as, b :: bs => a = b && prefixOfB as bs

/-- Boolean list infix test. -/
def infixOfB (pat : List Char) (l : List Char) : Bool :=
  match l with
  | [] => prefixOfB pat []
  | _ :: rest => prefixOfB pat l || infixOfB pat rest

/-- Rust's `str::contains(pat)`: `pat` occurs as a substring of `s`. -/
def strContains (s pat : String) : Bool :=
  infixOfB pat.data s.data

/-- The child path `entry.path()`: the directory path joined with the child's
file name. -/
def joinPath (dir name : String) : String :=
  dir ++ "/" ++ name

/-- The serialization loop of `write_tree`: starting from an empty string,
`tree.push_str(&format!("{} {} {}\n", _type, oid, filename))` for each entry
`(filename, oid, _type)` in order. -/
def serializeEntries (entries : List (String × String × String)) : String :=
  entries.foldl
    (fun tree e => tree ++ (e.2.2 ++ " " ++ e.2.1 ++ " " ++ e.1 ++ "\n")) ""

mutual

/-- The function `fn write_tree(dir: &Path)`: when `dir` is a
directory, walk its children collecting `(filename, oid, _type)` entries —
skipping any child path containing `".ugit"`, recursing on subdirectories and
`hash_object`-ing files as blobs — then serialize the entries and store the
result as a `"tree"` object; when `dir` is not a directory the loop body never
runs and the empty entry list is serialized and stored. -/
def write_tree (st : Store) (dir : String) (node : FsNode) : String × Store :=
  match node with
  | .file _ =>
      hash_object (asciiBytes (serializeEntries [])) (some "tree") st
  | .dir children =>
      let (entries, st1) := walkChildren st dir children
      hash_object (asciiBytes (serializeEntries entries)) (some "tree") st1

/-- The `for entry in fs::read_dir(dir)?` loop of `write_tree`, returning the
collected entries and the store after all the child `hash_object` calls. -/
def walkChildren (st : Store) (dir : String) :
    List (String × FsNode) → List (String × String × String) × Store
  | [] => ([], st)
  | (name, child) :: rest =>
      let path := joinPath dir name
      if strContains path ".ugit" then
        walkChildren st dir rest
      else
        match child with
        | .dir cs =>
            let (oid, st1) := write_tree st path (.dir cs)
            let (entries, st2) := walkChildren st1 dir rest
            ((path, oid, "tree") :: entries, st2)
        | .file content =>
            let (oid, st1) := hash_object content none st
            let (entries, st2) := walkChildren st1 dir rest
            ((path, oid, "blob") :: entries, st2)

end

/-- The two object kinds this core produces (the spec's `Blob` and `Tree`). -/
inductive Kind where
  | blob
  | tree
  deriving DecidableEq

/-- The tag string of a kind, as passed to `hash_object`. -/
def Kind.tag : Kind → String
  | .blob => "blob"
  | .tree => "tree"

/-- Lowercase hex characters. -/
def isLowerHexChar (c : Char) : Bool :=
  "0123456789abcdef".data.contains c

/-- A string made only of lowercase hex characters. -/
def isLowerHexStr (s : String) : Bool :=
  s.data.all isLowerHexChar

/-- The hash of the empty-payload tree object (encoded bytes `"tree\x00"`). -/
def emptyTreeHash : String :=
  sha1hex (asciiBytes "tree" ++ [0])

/-- The hash of the blob object for the two content bytes `"hi"`. -/
def hiBlobHash : String :=
  sha1hex (asciiBytes "blob" ++ 0 :: [104, 105])

/-! ## Helper lemmas -/

theorem Store.put_self (st : Store) (k : String) (v : List Nat) :
    Store.put st k v k = some v := by
  simp [Store.put]

theorem Store.put_ne (st : Store) (k p : String) (v : List Nat) (h : p ≠ k) :
    Store.put st k v p = st p := by
  simp [Store.put, h]

theorem Store.put_put (st : Store) (k : String) (v v' : List Nat) :
    Store.put (Store.put st k v) k v' = Store.put st k v' := by
  funext p
  by_cases h : p = k <;> simp [Store.put, h]

theorem takeWhile_append_zero (l data : List Nat) (h : (0 : Nat) ∉ l) :
    ((l ++ 0 :: data).takeWhile fun b => b ≠ 0) = l := by
  induction l with
  | nil => simp
  | cons a as ih =>
      have ha : (a : Nat) ≠ 0 := fun e => h (by simp [e])
      have has : (0 : Nat) ∉ as := fun m => h (List.mem_cons_of_mem _ m)
      simp only [List.cons_append, List.takeWhile_cons, ha, decide_not]
      simpa [ha] using ih has

theorem hash_object_fst (data : List Nat) (t : Option String) (st : Store) :
    (hash_object data t st).1 = sha1hex (asciiBytes (t.getD "blob") ++ 0 :: data) := by
  simp [hash_object]

theorem hash_object_snd (data : List Nat) (t : Option String) (st : Store) :
    (hash_object data t st).2 =
      Store.put st (objectPath (hash_object data t st).1)
        (asciiBytes (t.getD "blob") ++ 0 :: data) := by
  simp [hash_object]

/-- Reading back an object just written by `hash_object`, with any expected
kind: success with the full encoded bytes when the stored tag is the one
`get_object` expects, one of the two panics otherwise. -/
theorem get_object_hash_object (st : Store) (data : List Nat)
    (t e : Option String) (ht : (0 : Nat) ∉ asciiBytes (t.getD "blob")) :
    get_object (hash_object data t st).2 (hash_object data t st).1 e =
      if asciiBytes (t.getD "blob") = asciiBytes (e.getD "blob") then
        .ok (asciiBytes (t.getD "blob") ++ 0 :: data)
      else
        match e with
        | some es =>
            .panicked ("Expected " ++ es ++ ", got " ++
              fmtBytes (asciiBytes (t.getD "blob")))
        | none => .panicked unwrapNoneMsg := by
  rw [hash_object_snd, hash_object_fst]
  have hne : asciiBytes (t.getD "blob") ++ 0 :: data ≠ [] := by simp
  simp only [get_object, Store.put_self, firstSegment, hne, if_false,
    takeWhile_append_zero _ _ ht]
  by_cases hcmp : asciiBytes (t.getD "blob") = asciiBytes (e.getD "blob") <;>
    simp [hcmp]

theorem beBytes_length (k n : Nat) : (beBytes k n).length = k := by
  induction k generalizing n with
  | zero => rfl
  | succ k ih => simp [beBytes, ih]

theorem beBytes_lt (k n : Nat) : ∀ b ∈ beBytes k n, b < 256 := by
  induction k generalizing n with
  | zero => simp [beBytes]
  | succ k ih =>
      intro b hb
      simp only [beBytes, List.mem_append, List.mem_singleton] at hb
      rcases hb with hb | rfl
      · exact ih _ _ hb
      · exact Nat.mod_lt _ (by omega)

theorem sha1_length (msg : List Nat) : (sha1 msg).length = 20 := by
  rcases h : (chunks (padMsg msg)).foldl processBlock
      (1732584193, 4023233417, 2562383102, 271733878, 3285377520) with
    ⟨h0, h1, h2, h3, h4⟩
  simp [sha1, h, beBytes_length]

theorem sha1_lt (msg : List Nat) : ∀ b ∈ sha1 msg, b < 256 := by
  rcases h : (chunks (padMsg msg)).foldl processBlock
      (1732584193, 4023233417, 2562383102, 271733878, 3285377520) with
    ⟨h0, h1, h2, h3, h4⟩
  intro b hb
  simp only [sha1, h, List.mem_append] at hb
  rcases hb with ((((hb | hb) | hb) | hb) | hb) <;> exact beBytes_lt _ _ _ hb

theorem hexDigit_lowerHex : ∀ n < 16, isLowerHexChar (hexDigit n) = true := by
  decide

theorem hexEncode_length (bs : List Nat) :
    (hexEncode bs).length = 2 * bs.length := by
  induction bs with
  | nil => rfl
  | cons b rest ih =>
      simp [hexEncode, byteHex, String.length] at ih ⊢
      omega

theorem hexEncode_lowerHex (bs : List Nat) (h : ∀ b ∈ bs, b < 256) :
    isLowerHexStr (hexEncode bs) = true := by
  induction bs with
  | nil => rfl
  | cons b rest ih =>
      have hb : b < 256 := h b (by simp)
      have h1 : b / 16 < 16 := by omega
      have h2 : b % 16 < 16 := Nat.mod_lt _ (by omega)
      have hrest := ih fun x hx => h x (List.mem_cons_of_mem _ hx)
      simp only [isLowerHexStr, hexEncode, byteHex, List.map_cons,
        List.flatten_cons, List.all_cons, List.all_append] at hrest ⊢
      simp [hexDigit_lowerHex _ h1, hexDigit_lowerHex _ h2, hrest]

theorem sha1hex_length (msg : List Nat) : (sha1hex msg).length = 40 := by
  simp [sha1hex, hexEncode_length, sha1_length]

theorem sha1hex_lowerHex (msg : List Nat) :
    isLowerHexStr (sha1hex msg) = true :=
  hexEncode_lowerHex _ (sha1_lt msg)

/-- FIPS 180 test vector: the SHA-1 digest of the empty message, checked by
kernel evaluation of the embedded hash function. -/
theorem sha1hex_test_empty :
    sha1hex [] = "da39a3ee5e6b4b0d3255bfef95601890afd80709" := by
  decide

/-- FIPS 180 test vector: the SHA-1 digest of `"abc"`. -/
theorem sha1hex_test_abc :
    sha1hex [97, 98, 99] = "a9993e364706816aba3e25717850c26c9cd0d89d" := by
  decide

/-- FIPS 180 test vector: the SHA-1 digest of the 56-byte two-block message
`"abcdbcdecdefdefgefghfghighijhijkijkljklmklmnlmnomnopnopq"`. -/
theorem sha1hex_test_two_blocks :
    sha1hex (asciiBytes
        "abcdbcdecdefdefgefghfghighijhijkijkljklmklmnlmnomnopnopq") =
      "84983e441c3bd26ebaae4aa1f95129e5e54670f1" := by
  decide

/-! ## Unfolding lemmas for the tree builder -/

theorem write_tree_file_eq (st : Store) (p : String) (content : List Nat) :
    write_tree st p (.file content) =
      hash_object (asciiBytes (serializeEntries [])) (some "tree") st := by
  simp [write_tree]

theorem write_tree_dir_eq (st : Store) (p : String)
    (cs : List (String × FsNode)) :
    write_tree st p (.dir cs) =
      hash_object (asciiBytes (serializeEntries (walkChildren st p cs).1))
        (some "tree") (walkChildren st p cs).2 := by
  rcases hw : walkChildren st p cs with ⟨entries, st1⟩
  simp [write_tree, hw]

theorem walkChildren_nil (st : Store) (dir : String) :
    walkChildren st dir [] = ([], st) := by
  simp [walkChildren]

theorem walkChildren_cons_skip (st : Store) (dir name : String)
    (child : FsNode) (rest : List (String × FsNode))
    (h : strContains (joinPath dir name) ".ugit" = true) :
    walkChildren st dir ((name, child) :: rest) = walkChildren st dir rest := by
  cases child with
  | dir cs => rw [walkChildren.eq_2, if_pos h]
  | file content => rw [walkChildren.eq_3, if_pos h]

theorem walkChildren_cons_dir (st : Store) (dir name : String)
    (cs : List (String × FsNode)) (rest : List (String × FsNode))
    (h : strContains (joinPath dir name) ".ugit" = false) :
    walkChildren st dir ((name, .dir cs) :: rest) =
      ((joinPath dir name, (write_tree st (joinPath dir name) (.dir cs)).1,
          "tree") ::
        (walkChildren (write_tree st (joinPath dir name) (.dir cs)).2 dir
          rest).1,
       (walkChildren (write_tree st (joinPath dir name) (.dir cs)).2 dir
          rest).2) := by
  rcases h1 : write_tree st (joinPath dir name) (.dir cs) with ⟨oid, st1⟩
  rcases h2 : walkChildren st1 dir rest with ⟨entries, st2⟩
  simp [walkChildren, h, h1, h2]

theorem walkChildren_cons_file (st : Store) (dir name : String)
    (content : List Nat) (rest : List (String × FsNode))
    (h : strContains (joinPath dir name) ".ugit" = false) :
    walkChildren st dir ((name, .file content) :: rest) =
      ((joinPath dir name, (hash_object content none st).1, "blob") ::
        (walkChildren (hash_object content none st).2 dir rest).1,
       (walkChildren (hash_object content none st).2 dir rest).2) := by
  rcases h1 : hash_object content none st with ⟨oid, st1⟩
  rcases h2 : walkChildren st1 dir rest with ⟨entries, st2⟩
  simp [walkChildren, h, h1, h2]

/-- The object `write_tree` stores for a directory and returns the hash of:
the `"tree"` tag, the NUL separator, and the serialized entries of the walk. -/
theorem write_tree_dir_store (st : Store) (dir : String)
    (cs : List (String × FsNode)) :
    (write_tree st dir (.dir cs)).2 (objectPath (write_tree st dir (.dir cs)).1)
      = some (asciiBytes "tree" ++ 0 ::
          asciiBytes (serializeEntries (walkChildren st dir cs).1)) := by
  rw [write_tree_dir_eq, hash_object_snd, hash_object_fst, Store.put_self]
  rfl

/-- Every entry the walk collects: its kind word is `blob` or `tree`, its oid
is a hex SHA-1 digest, and its name is the full child path `dir ++ "/" ++ name`
of one of the children. -/
theorem walkChildren_entries (dir : String) (cs : List (String × FsNode)) :
    ∀ st : Store, ∀ e ∈ (walkChildren st dir cs).1,
      (e.2.2 = "blob" ∨ e.2.2 = "tree") ∧
      (∃ msg, e.2.1 = sha1hex msg) ∧
      ∃ name node, (name, node) ∈ cs ∧ e.1 = joinPath dir name := by
  induction cs with
  | nil =>
      intro st e he
      simp [walkChildren_nil] at he
  | cons c rest ih =>
      intro st e he
      obtain ⟨name, child⟩ := c
      by_cases hskip : strContains (joinPath dir name) ".ugit" = true
      · rw [walkChildren_cons_skip st dir name child rest hskip] at he
        obtain ⟨h1, h2, name', node', hmem, hpath⟩ := ih st e he
        exact ⟨h1, h2, name', node', List.mem_cons_of_mem _ hmem, hpath⟩
      · rw [Bool.not_eq_true] at hskip
        cases child with
        | dir cs2 =>
            rw [walkChildren_cons_dir st dir name cs2 rest hskip] at he
            rcases List.mem_cons.mp he with rfl | he'
            · refine ⟨Or.inr rfl, ?_, name, .dir cs2, List.mem_cons_self .., rfl⟩
              rw [write_tree_dir_eq, hash_object_fst]
              exact ⟨_, rfl⟩
            · obtain ⟨h1, h2, name', node', hmem, hpath⟩ := ih _ e he'
              exact ⟨h1, h2, name', node', List.mem_cons_of_mem _ hmem, hpath⟩
        | file content =>
            rw [walkChildren_cons_file st dir name content rest hskip] at he
            rcases List.mem_cons.mp he with rfl | he'
            · refine ⟨Or.inl rfl, ?_, name, .file content,
                List.mem_cons_self .., rfl⟩
              rw [hash_object_fst]
              exact ⟨_, rfl⟩
            · obtain ⟨h1, h2, name', node', hmem, hpath⟩ := ih _ e he'
              exact ⟨h1, h2, name', node', List.mem_cons_of_mem _ hmem, hpath⟩

theorem asciiBytes_append (s t : String) :
    asciiBytes (s ++ t) = asciiBytes s ++ asciiBytes t := by
  simp [asciiBytes, String.data_append]

theorem asciiBytes_length (s : String) : (asciiBytes s).length = s.length :=
  List.length_map _ _

/-- No object path is the empty string (it starts with ".rgit/objects/"). -/
theorem empty_ne_objectPath (hs : String) : "" ≠ objectPath hs := by
  intro e
  have hl := congrArg String.length e
  simp only [objectPath, RGIT_DIR, String.length_append] at hl
  have h0 : ("" : String).length = 0 := rfl
  have h5 : (".rgit" : String).length = 5 := rfl
  have h9 : ("/objects/" : String).length = 9 := rfl
  omega

/-- Serialization of a one-entry listing, split at the five field boundaries. -/
theorem serializeEntries_single (p o ty : String) :
    asciiBytes (serializeEntries [(p, o, ty)]) =
      asciiBytes ty ++ asciiBytes " " ++ asciiBytes o ++ asciiBytes " " ++
        asciiBytes p ++ asciiBytes "\n" := by
  simp [serializeEntries, asciiBytes_append]

/-! ## The claims -/

/-- C1, counterexample: store the blob `"hi"` (bytes `[104, 105]`) and read it
back; the result is the full stored bytes `"blob\x00hi"`, not the bare
content — the tag and separator are not stripped. -/
theorem C1_counterexample :
    get_object (hash_object [104, 105] none emptyStore).2
        (hash_object [104, 105] none emptyStore).1 none =
      .ok [98, 108, 111, 98, 0, 104, 105] ∧
    get_object (hash_object [104, 105] none emptyStore).2
        (hash_object [104, 105] none emptyStore).1 none ≠
      .ok [104, 105] := by
  have h := get_object_hash_object emptyStore [104, 105] none none (by decide)
  rw [if_pos rfl] at h
  refine ⟨?_, ?_⟩ <;> rw [h] <;> decide

/-- C1, amended: for every stored object and matching expected kind, a
successful `get` returns the FULL stored byte sequence — kind tag, `0x00`
separator and content — not just the content portion. -/
theorem C1_get_returns_full_bytes (st : Store) (content : List Nat) (k : Kind) :
    get_object (hash_object content (some k.tag) st).2
        (hash_object content (some k.tag) st).1 (some k.tag) =
      .ok (asciiBytes k.tag ++ 0 :: content) ∧
    get_object (hash_object content none st).2
        (hash_object content none st).1 none =
      .ok (asciiBytes "blob" ++ 0 :: content) := by
  constructor
  · have ht : (0 : Nat) ∉ asciiBytes ((some k.tag).getD "blob") := by
      cases k <;> decide
    have h := get_object_hash_object st content (some k.tag) (some k.tag) ht
    rw [if_pos rfl] at h
    exact h
  · have h := get_object_hash_object st content none none (by decide)
    rw [if_pos rfl] at h
    exact h

/-- C2, counterexample: reading a stored blob with expected kind `tree` does
not return a recoverable error value; it panics (aborting the process), with
the expected and actual kinds in the panic message. -/
theorem C2_counterexample :
    get_object (hash_object [104, 105] (some "blob") emptyStore).2
        (hash_object [104, 105] (some "blob") emptyStore).1 (some "tree") =
      .panicked "Expected tree, got [98, 108, 111, 98]" := by
  have h := get_object_hash_object emptyStore [104, 105] (some "blob")
    (some "tree") (by decide)
  rw [if_neg (by decide)] at h
  rw [h]
  decide

/-- C2, amended: on a kind mismatch with a supplied expected kind, `get`
aborts the process via `panic!` whose message carries both the expected kind
and the actual tag bytes; no error value is returned to the caller. -/
theorem C2_kind_mismatch_panics (st : Store) (content : List Nat) (k k2 : Kind)
    (hk : k ≠ k2) :
    get_object (hash_object content (some k.tag) st).2
        (hash_object content (some k.tag) st).1 (some k2.tag) =
      .panicked ("Expected " ++ k2.tag ++ ", got " ++
        fmtBytes (asciiBytes k.tag)) := by
  have ht : (0 : Nat) ∉ asciiBytes ((some k.tag).getD "blob") := by
    cases k <;> decide
  have hne : asciiBytes ((some k.tag).getD "blob") ≠
      asciiBytes ((some k2.tag).getD "blob") := by
    cases k <;> cases k2 <;> first | exact absurd rfl hk | decide
  have h := get_object_hash_object st content (some k.tag) (some k2.tag) ht
  rw [if_neg hne] at h
  exact h

/-- C2, witness: the amended theorem applied to a stored `"hi"` blob read
back with expected kind `tree`. -/
theorem C2_kind_mismatch_panics_witness :
    Kind.blob ≠ Kind.tree ∧
    get_object (hash_object [104, 105] (some Kind.blob.tag) emptyStore).2
        (hash_object [104, 105] (some Kind.blob.tag) emptyStore).1
        (some Kind.tree.tag) =
      .panicked ("Expected " ++ Kind.tree.tag ++ ", got " ++
        fmtBytes (asciiBytes Kind.blob.tag)) :=
  ⟨by decide,
   C2_kind_mismatch_panics emptyStore [104, 105] .blob .tree (by decide)⟩

/-- C3, counterexample: a stored `tree` object read with
`expected_kind = None` does not succeed: the tag is still checked against the
default `"blob"`, and the process aborts (the mismatch panic itself calls
`expected.unwrap()` on `None`, so the abort carries the unwrap message). -/
theorem C3_counterexample :
    get_object (hash_object [104, 105] (some "tree") emptyStore).2
        (hash_object [104, 105] (some "tree") emptyStore).1 none =
      .panicked unwrapNoneMsg := by
  have h := get_object_hash_object emptyStore [104, 105] (some "tree") none
    (by decide)
  rw [if_neg (by decide)] at h
  exact h

/-- C3, amended: with `expected_kind = None` the stored kind is still
verified, against the default `"blob"`: `get` succeeds on blob objects and
aborts via panic on tree objects. -/
theorem C3_none_still_checks_blob (st : Store) (content : List Nat) :
    get_object (hash_object content none st).2
        (hash_object content none st).1 none =
      .ok (asciiBytes "blob" ++ 0 :: content) ∧
    get_object (hash_object content (some "tree") st).2
        (hash_object content (some "tree") st).1 none =
      .panicked unwrapNoneMsg := by
  constructor
  · have h := get_object_hash_object st content none none (by decide)
    rw [if_pos rfl] at h
    exact h
  · have h := get_object_hash_object st content (some "tree") none (by decide)
    rw [if_neg (by decide)] at h
    exact h

/-- C6: `put` (`hash_object`) encodes tag (`"blob"` by default, the supplied
tag otherwise, `"tree"` for trees), `0x00`, then the content; the returned
hash is the lowercase hex encoding of the 20-byte (160-bit) SHA-1 digest of
the full encoded sequence; exactly one file, at the digest's path under the
store root, now holds exactly the encoded bytes, and every other path is
untouched. -/
theorem C6_put_encoding (data : List Nat) (t : Option String) (st : Store) :
    (hash_object data t st).1 =
      hexEncode (sha1 (asciiBytes (t.getD "blob") ++ 0 :: data)) ∧
    (sha1 (asciiBytes (t.getD "blob") ++ 0 :: data)).length = 20 ∧
    isLowerHexStr (hash_object data t st).1 = true ∧
    (hash_object data t st).2 (objectPath (hash_object data t st).1) =
      some (asciiBytes (t.getD "blob") ++ 0 :: data) ∧
    ∀ p, p ≠ objectPath (hash_object data t st).1 →
      (hash_object data t st).2 p = st p := by
  refine ⟨hash_object_fst .., sha1_length _, ?_, ?_, ?_⟩
  · rw [hash_object_fst]
    exact sha1hex_lowerHex _
  · rw [hash_object_snd]
    exact Store.put_self ..
  · intro p hp
    rw [hash_object_snd]
    exact Store.put_ne _ _ _ _ hp

/-- C6, witness: the theorem applied to the blob `"hi"` in the empty store;
the path `""` differs from the object's path, so it stays unmapped. -/
theorem C6_put_encoding_witness :
    ("" : String) ≠ objectPath (hash_object [104, 105] none emptyStore).1 ∧
    (hash_object [104, 105] none emptyStore).2 "" = none := by
  refine ⟨empty_ne_objectPath _, ?_⟩
  exact (C6_put_encoding [104, 105] none emptyStore).2.2.2.2 ""
    (empty_ne_objectPath _)

/-- C7: a second `put` of the same kind and content succeeds, returns the
same hash, and leaves the store state exactly as after the first call: the
one entry holds the encoded bytes, every other path still holds what the
original store held, and any later `get` is unaffected. -/
theorem C7_put_idempotent (data : List Nat) (t : Option String) (st : Store) :
    (hash_object data t (hash_object data t st).2).1 =
      (hash_object data t st).1 ∧
    (hash_object data t (hash_object data t st).2).2 =
      (hash_object data t st).2 ∧
    (hash_object data t (hash_object data t st).2).2
        (objectPath (hash_object data t st).1) =
      some (asciiBytes (t.getD "blob") ++ 0 :: data) ∧
    (∀ p, p ≠ objectPath (hash_object data t st).1 →
      (hash_object data t (hash_object data t st).2).2 p = st p) ∧
    ∀ expected,
      get_object (hash_object data t (hash_object data t st).2).2
          (hash_object data t st).1 expected =
        get_object (hash_object data t st).2
          (hash_object data t st).1 expected := by
  have h2 : (hash_object data t (hash_object data t st).2).2 =
      (hash_object data t st).2 := by
    have efst : (hash_object data t (hash_object data t st).2).1 =
        (hash_object data t st).1 := by
      rw [hash_object_fst, hash_object_fst]
    have e2 := hash_object_snd data t (hash_object data t st).2
    rw [efst] at e2
    rw [e2, hash_object_snd data t st, Store.put_put]
  refine ⟨by rw [hash_object_fst, hash_object_fst], h2, ?_, ?_, ?_⟩
  · rw [h2, hash_object_snd]
    exact Store.put_self ..
  · intro p hp
    rw [h2, hash_object_snd]
    exact Store.put_ne _ _ _ _ hp
  · intro expected
    rw [h2]

/-- C7, witness: the theorem applied to the blob `"hi"` in the empty store:
the two hashes agree and the path `""` is still unmapped after both puts. -/
theorem C7_put_idempotent_witness :
    (hash_object [104, 105] none
        (hash_object [104, 105] none emptyStore).2).1 =
      (hash_object [104, 105] none emptyStore).1 ∧
    (hash_object [104, 105] none
        (hash_object [104, 105] none emptyStore).2).2 "" = none := by
  refine ⟨(C7_put_idempotent [104, 105] none emptyStore).1, ?_⟩
  exact (C7_put_idempotent [104, 105] none emptyStore).2.2.2.1 ""
    (empty_ne_objectPath _)

/-- C8: `get` of a hash with no stored entry returns the NotFound error value
(the propagated `fs::read` error, the spec's `ObjectNotFound`) — it neither
succeeds nor panics. -/
theorem C8_missing_object (st : Store) (hash : String)
    (expected : Option String) (h : st (objectPath hash) = none) :
    get_object st hash expected = .notFound := by
  simp [get_object, h]

/-- C8, witness: the theorem applied to the all-zero hash in the empty
store. -/
theorem C8_missing_object_witness :
    emptyStore (objectPath "0000000000000000000000000000000000000000") =
      none ∧
    get_object emptyStore "0000000000000000000000000000000000000000" none =
      .notFound :=
  ⟨rfl, C8_missing_object emptyStore _ none rfl⟩

/-- C4: the skip check of `write_tree` tests child paths for the substring
`".ugit"`, not for the store's own directory `RGIT_DIR = ".rgit"`.
Snapshotting a directory `.` that contains the (empty) store directory
`.rgit` therefore does NOT skip it: the stored payload is the single line
`"tree <emptyTreeHash> ./.rgit\n"` (spelled out in byte segments below), and
the reserved name `.rgit` occurs in that payload. -/
theorem C4_rgit_not_skipped :
    strContains (joinPath "." RGIT_DIR) ".ugit" = false ∧
    (write_tree emptyStore "." (.dir [(RGIT_DIR, .dir [])])).2
        (objectPath
          (write_tree emptyStore "." (.dir [(RGIT_DIR, .dir [])])).1) =
      some (asciiBytes "tree" ++ 0 ::
        (asciiBytes "tree" ++ asciiBytes " " ++ asciiBytes emptyTreeHash ++
          asciiBytes " " ++ asciiBytes "./.rgit" ++ asciiBytes "\n")) ∧
    asciiBytes RGIT_DIR <:+:
      (asciiBytes "tree" ++ asciiBytes " " ++ asciiBytes emptyTreeHash ++
        asciiBytes " " ++ asciiBytes "./.rgit" ++ asciiBytes "\n") := by
  refine ⟨by decide, ?_, ?_⟩
  · rw [write_tree_dir_store,
      walkChildren_cons_dir _ _ _ _ _ (by decide), walkChildren_nil]
    dsimp only
    rw [write_tree_dir_eq, walkChildren_nil, hash_object_fst,
      serializeEntries_single]
    rfl
  · have hmid : asciiBytes RGIT_DIR <:+:
        asciiBytes "./.rgit" ++ asciiBytes "\n" := by decide
    refine hmid.trans ?_
    refine List.IsSuffix.isInfix ?_
    refine ⟨asciiBytes "tree" ++ asciiBytes " " ++ asciiBytes emptyTreeHash ++
      asciiBytes " ", ?_⟩
    simp [List.append_assoc]

/-- C5, counterexample: `write_tree` of directory `d` containing file `a.txt`
stores a tree whose single line names the child by its full joined path
`d/a.txt` — a multi-segment path — not by the final component `a.txt`, so the
stored payload differs from the one the claim prescribes. -/
theorem C5_counterexample :
    (write_tree emptyStore "d" (.dir [("a.txt", .file [104, 105])])).2
        (objectPath
          (write_tree emptyStore "d" (.dir [("a.txt", .file [104, 105])])).1)
      = some (asciiBytes "tree" ++ 0 ::
          (asciiBytes "blob" ++ asciiBytes " " ++ asciiBytes hiBlobHash ++
            asciiBytes " " ++ asciiBytes "d/a.txt" ++ asciiBytes "\n")) ∧
    (asciiBytes "blob" ++ asciiBytes " " ++ asciiBytes hiBlobHash ++
        asciiBytes " " ++ asciiBytes "d/a.txt" ++ asciiBytes "\n") ≠
      (asciiBytes "blob" ++ asciiBytes " " ++ asciiBytes hiBlobHash ++
        asciiBytes " " ++ asciiBytes "a.txt" ++ asciiBytes "\n") := by
  constructor
  · rw [write_tree_dir_store,
      walkChildren_cons_file _ _ _ _ _ (by decide), walkChildren_nil]
    dsimp only
    rw [hash_object_fst, serializeEntries_single]
    rfl
  · intro e
    have hl := congrArg List.length e
    simp only [List.length_append, asciiBytes_length, sha1hex_length,
      hiBlobHash] at hl
    have h7 : ("d/a.txt" : String).length = 7 := rfl
    have h5 : ("a.txt" : String).length = 5 := rfl
    omega

/-- C5, amended: each line of a `write_tree` tree payload has the form
`"<kind> <hash> <path>\n"` where `kind` is the literal word `blob` or `tree`,
`hash` is 40 characters of lowercase hex, and `path` is the child's FULL
joined path (the directory argument joined with the child's name by `/`),
which is multi-segment whenever the directory argument is nonempty — not the
final path component alone. -/
theorem C5_tree_lines (st : Store) (dir : String)
    (children : List (String × FsNode)) :
    ∃ entries : List (String × String × String),
      (write_tree st dir (.dir children)).2
          (objectPath (write_tree st dir (.dir children)).1) =
        some (asciiBytes "tree" ++ 0 ::
          asciiBytes (serializeEntries entries)) ∧
      ∀ e ∈ entries,
        (e.2.2 = "blob" ∨ e.2.2 = "tree") ∧
        e.2.1.length = 40 ∧
        isLowerHexStr e.2.1 = true ∧
        ∃ name node, (name, node) ∈ children ∧ e.1 = joinPath dir name := by
  refine ⟨(walkChildren st dir children).1, write_tree_dir_store .., ?_⟩
  intro e he
  obtain ⟨h1, ⟨msg, hmsg⟩, hname⟩ := walkChildren_entries dir children st e he
  refine ⟨h1, ?_, ?_, hname⟩
  · rw [hmsg]
    exact sha1hex_length msg
  · rw [hmsg]
    exact sha1hex_lowerHex msg

/-- C5, witness: the amended theorem applied to directory `d` holding the
single file `a.txt` with content `"hi"`, starting from the empty store. -/
theorem C5_tree_lines_witness :
    ∃ entries : List (String × String × String),
      (write_tree emptyStore "d" (.dir [("a.txt", .file [104, 105])])).2
          (objectPath
            (write_tree emptyStore "d"
              (.dir [("a.txt", .file [104, 105])])).1) =
        some (asciiBytes "tree" ++ 0 ::
          asciiBytes (serializeEntries entries)) ∧
      ∀ e ∈ entries,
        (e.2.2 = "blob" ∨ e.2.2 = "tree") ∧
        e.2.1.length = 40 ∧
        isLowerHexStr e.2.1 = true ∧
        ∃ name node, (name, node) ∈ [("a.txt", FsNode.file [104, 105])] ∧
          e.1 = joinPath "d" name :=
  C5_tree_lines emptyStore "d" [("a.txt", .file [104, 105])]

/-- C9: `write_tree` of an empty directory succeeds and stores a tree object
with empty payload (encoded bytes `"tree\x00"`), returning its hash — a value
independent of the starting store and of the path, hence reproducible. -/
theorem C9_empty_directory (st : Store) (path : String) :
    (write_tree st path (.dir [])).1 = emptyTreeHash ∧
    (write_tree st path (.dir [])).2
        (objectPath (write_tree st path (.dir [])).1) =
      some (asciiBytes "tree" ++ [0]) := by
  constructor
  · rw [write_tree_dir_eq, walkChildren_nil, hash_object_fst]
    rfl
  · rw [write_tree_dir_store, walkChildren_nil]
    rfl

/-- C10: `write_tree` of a path that is not a directory does not fail: the
`path.is_dir()` guard just skips the loop, so it stores the empty-payload
tree object and returns its hash — the same hash an empty directory
produces. -/
theorem C10_non_directory (st : Store) (path : String) (content : List Nat) :
    (write_tree st path (.file content)).1 = emptyTreeHash ∧
    (write_tree st path (.file content)).2
        (objectPath (write_tree st path (.file content)).1) =
      some (asciiBytes "tree" ++ [0]) ∧
    (write_tree st path (.file content)).1 =
      (write_tree st path (.dir [])).1 := by
  refine ⟨?_, ?_, ?_⟩
  · rw [write_tree_file_eq, hash_object_fst]
    rfl
  · rw [write_tree_file_eq, hash_object_snd, hash_object_fst, Store.put_self]
    rfl
  · rw [write_tree_file_eq, write_tree_dir_eq, walkChildren_nil]

end Rgit
